import Mathlib

/-!
Verification development for the markdown tab-block transformer in
`src/cli/scripts.py` of the `dse-guides` repository.

Documents are modelled as `List Char` (the exact character sequence read from
the file).  Python string operations used by the source (`str.replace`,
`str.startswith`, `str.strip`, `in`, slicing) are embedded as executable
functions on `List Char`; the regular expression
`^=== "([^"]+)"\s*\n((?:^[ \t]+.*\n*)*)` (MULTILINE) of
`extract_sections_from_markdown_file` is embedded by `scanTabs`, a direct
implementation of its leftmost, non-overlapping matching behaviour.
File-system effects are modelled by result values: a constructor carrying the
written path and content stands for the single `open(..., "w")` write, and the
error constructors stand for `print`-and-return paths that write nothing.
-/

namespace DseGuides

/-- Python `needle is a prefix of haystack` (`str.startswith`). -/
def isPre : List Char → List Char → Bool
  | [], _ => true
  | _ :: _, [] => false
  | p :: ps, c :: cs => p = c && isPre ps cs

/-- Python `pat in s` (substring containment). -/
def hasSub (pat : List Char) : List Char → Bool
  | [] => isPre pat []
  | c :: cs => isPre pat (c :: cs) || hasSub pat cs

/-- Python `s.replace(pat, "", 1)`: delete the first occurrence of `pat`
from `s`, leaving `s` unchanged when `pat` does not occur (or is empty,
matching `str.replace` with an empty needle and empty replacement). -/
def replaceFirst (pat : List Char) : List Char → List Char
  | [] => []
  | c :: cs =>
    if !pat.isEmpty && isPre pat (c :: cs) then (c :: cs).drop pat.length
    else c :: replaceFirst pat cs

/-- Recursion core of `replaceAll`; `fuel` bounds the recursion depth and
is never exhausted when it starts at the length of the scanned list, since
every step consumes at least one character. -/
def replaceAllAux (pat rep : List Char) : Nat → List Char → List Char
  | 0, s => s
  | _ + 1, [] => []
  | fuel + 1, c :: cs =>
    if !pat.isEmpty && isPre pat (c :: cs) then
      rep ++ replaceAllAux pat rep fuel ((c :: cs).drop pat.length)
    else
      c :: replaceAllAux pat rep fuel cs

/-- Python `s.replace(pat, rep)`: replace every (leftmost, non-overlapping)
occurrence of `pat` by `rep`. -/
def replaceAll (pat rep : List Char) (s : List Char) : List Char :=
  replaceAllAux pat rep s.length s

/-- Characters matched by Python `\s` / stripped by `str.strip()` (ASCII). -/
def isPySpace (c : Char) : Bool :=
  c = ' ' || c = '\t' || c = '\n' || c = '\r' || c = '\x0b' || c = '\x0c'

/-- Python `s.strip()`. -/
def stripChars (s : List Char) : List Char :=
  ((s.dropWhile isPySpace).reverse.dropWhile isPySpace).reverse

/-- Python `s.lower()` on the characters of a string (ASCII case folding,
which covers every valid section name). -/
def lowerChars (s : List Char) : List Char := s.map Char.toLower

/-- A match of the tab-section pattern: captured group 1 (`name`), captured
group 2 (`body`), and the full matched text (group 0). -/
structure TabMatch where
  name : List Char
  body : List Char
  full : List Char
deriving DecidableEq

/-- The literal prefix `=== "` of the tab-section pattern. -/
def tabHdrPre : List Char := ['=', '=', '=', ' ', '"']

/-- Length of the prefix of `w` that ends at the last newline of `w`
(the amount consumed by greedy `\s*\n` when `w` is the whitespace run
after the closing quote); `none` when `w` has no newline. -/
def lastNlPrefixLen : List Char → Option Nat
  | [] => none
  | c :: cs =>
    match lastNlPrefixLen cs with
    | some k => some (k + 1)
    | none => if c = '\n' then some 1 else none

/-- Recursion core of `takeBody`; every repetition consumes at least one
character, so `fuel` starting at the list length is never exhausted. -/
def takeBodyAux : Nat → List Char → List Char
  | 0, _ => []
  | _ + 1, [] => []
  | fuel + 1, c :: cs' =>
    if c = ' ' || c = '\t' then
      let content := cs'.takeWhile (fun x => x ≠ '\n')
      let rest := cs'.drop content.length
      let nls := rest.takeWhile (fun x => x = '\n')
      (c :: content) ++ nls ++ takeBodyAux fuel (rest.drop nls.length)
    else []

/-- Text consumed by `((?:^[ \t]+.*\n*)*)` at a line start: the maximal run
of repetitions of an indented line (`[ \t]+.*`) followed by its newline and
any immediately following empty lines (`\n*`). -/
def takeBody (cs : List Char) : List Char := takeBodyAux cs.length cs

/-- Attempt of the pattern `^=== "([^"]+)"\s*\n((?:^[ \t]+.*\n*)*)` at a
line-start position: returns the match and the number of characters it
consumed, or `none`. -/
def matchTabAt (cs : List Char) : Option (TabMatch × Nat) :=
  if isPre tabHdrPre cs then
    let r1 := cs.drop 5
    let name := r1.takeWhile (fun c => c ≠ '"')
    if name.isEmpty then none
    else if name.length = r1.length then none
    else
      let r2 := r1.drop (name.length + 1)
      let w := r2.takeWhile isPySpace
      match lastNlPrefixLen w with
      | none => none
      | some k =>
        let body := takeBody (r2.drop k)
        let total := 5 + name.length + 1 + k + body.length
        some ({ name := name, body := body, full := cs.take total }, total)
  else none

/-- Recursion core of `scanTabs`; by `matchTabAt_pos` (proved below) every step consumes at
least one character, so `fuel` starting at the list length is never
exhausted. -/
def scanTabsAux : Nat → List Char → Bool → List TabMatch
  | 0, _, _ => []
  | _ + 1, [], _ => []
  | fuel + 1, c :: cs', atStart =>
    if atStart then
      match matchTabAt (c :: cs') with
      | some r =>
        r.1 :: scanTabsAux fuel ((c :: cs').drop r.2) (r.1.full.getLast? == some '\n')
      | none => scanTabsAux fuel cs' (c == '\n')
    else scanTabsAux fuel cs' (c == '\n')

/-- `re.finditer` of the tab pattern: scan the document left to right, trying
the pattern at every line-start position, resuming after each match. The
second argument records whether the current position is a line start. -/
def scanTabs (cs : List Char) (atStart : Bool) : List TabMatch :=
  scanTabsAux cs.length cs atStart

/-- Length of the leading run of newline characters. -/
def nlRun (s : List Char) : Nat := (s.takeWhile (fun c => c = '\n')).length

/-- Recursion core of `collapseNewlines`; every step consumes at least one
character, so `fuel` starting at the list length is never exhausted. -/
def collapseNewlinesAux : Nat → List Char → List Char
  | 0, _ => []
  | _ + 1, [] => []
  | fuel + 1, c :: cs =>
    if c = '\n' ∧ 4 ≤ nlRun (c :: cs) then
      '\n' :: '\n' :: '\n' :: collapseNewlinesAux fuel ((c :: cs).drop (nlRun (c :: cs)))
    else
      c :: collapseNewlinesAux fuel cs

/-- Python `re.sub(r"\n{4,}", "\n\n\n", s)`: every maximal run of 4 or more
consecutive newlines is replaced by exactly three newlines. -/
def collapseNewlines (s : List Char) : List Char :=
  collapseNewlinesAux s.length s

/-- A run of four consecutive newline characters (the least forbidden
run length after the `\n{4,}` collapse). -/
def fourNl : List Char := ['\n', '\n', '\n', '\n']

/-- The slice of the file system state that
`extract_sections_from_markdown_file` reads: whether the path names an
existing file, its `pathlib` stem and suffix, and its text content. -/
structure MdFile where
  present : Bool
  stem : List Char
  suffix : List Char
  content : List Char
deriving DecidableEq

/-- Effect of one run of `extract_sections_from_markdown_file`:
`errorMsg m` models "print `m` and return without writing";
`wrote p c k r` models the single `open(p, "w")` write of content `c`
followed by the report of `k` kept and `r` removed sections. -/
inductive ExtractResult where
  | errorMsg (msg : List Char)
  | wrote (path : List Char) (content : List Char) (kept removed : Nat)
deriving DecidableEq

/-- The content written by an `ExtractResult`, if any. -/
def writtenContent : ExtractResult → Option (List Char)
  | .errorMsg _ => none
  | .wrote _ c _ _ => some c

/-- The path written by an `ExtractResult`, if any. -/
def writtenPath : ExtractResult → Option (List Char)
  | .errorMsg _ => none
  | .wrote p _ _ _ => some p

def mdSuffix : List Char := ['.', 'm', 'd']

/-- `extract_sections_from_markdown_file(file_path, section_name)` from
`src/cli/scripts.py`.  `f` is the state of the file at `file_path`
(`file_path` itself is carried only for the printed messages). -/
def extract_sections_from_markdown_file (f : MdFile) (file_path : List Char)
    (section_name : List Char) : ExtractResult :=
  if !f.present then
    .errorMsg ("File ".toList ++ file_path ++ " does not exist.".toList)
  else if f.suffix ≠ mdSuffix then
    .errorMsg ("File ".toList ++ file_path ++ " is not a markdown file.".toList)
  else
    let ms := scanTabs f.content true
    if ms.isEmpty then
      .errorMsg ("No tab sections found in ".toList ++ file_path)
    else
      let target := lowerChars section_name
      let result := ms.reverse.foldl
        (fun acc m =>
          if lowerChars m.name = target then acc else replaceFirst m.full acc)
        f.content
      let kept := ms.filter (fun m => lowerChars m.name = target)
      if kept.isEmpty then
        .errorMsg ("No sections found for '".toList ++ section_name ++
          "' in ".toList ++ file_path)
      else
        .wrote (f.stem ++ ['-'] ++ lowerChars section_name ++ f.suffix)
          (collapseNewlines result) kept.length (ms.length - kept.length)

/-- `len(line.strip()) == 0`: the line is blank (only whitespace). -/
def blankLine (line : List Char) : Bool := (stripChars line).isEmpty

/-- `"#" * int(header[1]) + " "` when the header style starts with `h`
(symbolic level such as `h3`), else `header.strip() + " "` (literal heading
marker such as `###`): the text substituted for the leading `=== `. -/
def tabHeaderStr (header : List Char) : List Char :=
  if isPre ['h'] header then
    (match header.drop 1 with
      | d :: _ => List.replicate (d.toNat - '0'.toNat) '#'
      | [] => []) ++ [' ']
  else stripChars header ++ [' ']

/-- Step "Dedent lines in Tab blocks" of `reformat_file`: while
`in_tab_block`, a line starting with a 4-space indent loses exactly that
indent; otherwise `in_tab_block` is cleared. Returns the updated
`in_tab_block` and line. -/
def tabDedentStep (itb : Bool) (line : List Char) : Bool × List Char :=
  if itb then
    if isPre [' ', ' ', ' ', ' '] line then (itb, line.drop 4) else (false, line)
  else (itb, line)

/-- Step "Convert headings for Tab blocks" of `reformat_file`: a line
starting with `===` sets `in_tab_block`, has every `=== ` replaced by the
configured heading marker, and loses all double quotes. -/
def tabHeaderStep (header : List Char) (itb : Bool) (line : List Char) :
    Bool × List Char :=
  if isPre ['=', '=', '='] line then
    (true, replaceAll ['"'] [] (replaceAll ['=', '=', '=', ' '] (tabHeaderStr header) line))
  else (itb, line)

/-- The fence marker ```` ``` ````. -/
def bq3 : List Char := ['`', '`', '`']

/-- The short-alias fence opener ```` ```py ````. -/
def bqPy : List Char := ['`', '`', '`', 'p', 'y']

/-- The canonical fence opener ```` ```python ````. -/
def bqPython : List Char := ['`', '`', '`', 'p', 'y', 't', 'h', 'o', 'n']

/-- Step "Handle code block start" of `reformat_file`: a line starting with
```` ```py ```` but not ```` ```python ```` sets `in_code_block` and has
the short alias rewritten to the canonical tag. -/
def fenceOpenStep (icb : Bool) (line : List Char) : Bool × List Char :=
  if isPre bqPy line && !(isPre bqPython line) then
    (true, replaceAll bqPy bqPython line)
  else (icb, line)

/-- The `if in_code_block:` check of `reformat_file`: while `in_code_block`,
a line whose stripped form starts with a fence marker clears it. -/
def fenceCloseStep (icb : Bool) (line : List Char) : Bool :=
  if icb then
    if isPre bq3 (stripChars line) then false else icb
  else icb

/-- The include-marker token `--8<--` stripped by `reformat_file`. -/
def inclMarker : List Char := "--8<--".toList

/-- Step "Remove special markers outside code blocks" of `reformat_file`:
when not `in_code_block`, a line containing the include marker is blanked. -/
def markerStripStep (icb : Bool) (line : List Char) : List Char :=
  if !icb then (if hasSub inclMarker line then [] else line) else line

/-- The line the marker-stripping check of `reformat_file` sees: the input
line after the tab-dedent, heading-conversion and fence-open rewrites. -/
def preStripLine (header : List Char) (itb : Bool) (line : List Char) :
    List Char :=
  (fenceOpenStep false (tabHeaderStep header (tabDedentStep itb line).1
    (tabDedentStep itb line).2).2).2

/-- One iteration of the line-cleaning loop of `reformat_file`: given the
`in_code_block` / `in_tab_block` state and a line, produce the new state and
the line stored back into `lines[index]`. Blank lines are skipped
(`continue`) and change nothing. -/
def processLine (header : List Char) (icb itb : Bool) (line : List Char) :
    Bool × Bool × List Char :=
  if blankLine line then (icb, itb, line)
  else
    let p1 := tabDedentStep itb line
    let p2 := tabHeaderStep header p1.1 p1.2
    let p3 := fenceOpenStep icb p2.2
    let icb2 := fenceCloseStep p3.1 p3.2
    (icb2, p2.1, markerStripStep icb2 p3.2)

/-- The line-cleaning loop of `reformat_file` from a given state. -/
def reformatGo (header : List Char) (icb itb : Bool) :
    List (List Char) → List (List Char)
  | [] => []
  | l :: ls =>
    let r := processLine header icb itb l
    r.2.2 :: reformatGo header r.1 r.2.1 ls

/-- The whole line-cleaning pass of `reformat_file`: both state flags start
false. -/
def reformatLines (header : List Char) (lines : List (List Char)) :
    List (List Char) :=
  reformatGo header false false lines

/-- `reformat_file(file_path, replace_tab_with_header)`: when the input file
is missing, print and return `None` (no write); otherwise write the cleaned
lines to `<stem>-r<suffix>` and return that path with the written lines.
`lines` is the `f.readlines()` result (after the out-of-scope external
`blacken-docs` pre-pass); `writelines` concatenates them unchanged, so the
written bytes are exactly the returned lines in order. -/
def reformat_file (present : Bool) (stem suffix : List Char)
    (lines : List (List Char)) (header : List Char) :
    Option (List Char × List (List Char)) :=
  if !present then none
  else some (stem ++ ['-', 'r'] ++ suffix, reformatLines header lines)

/-- Outcome of a CLI entry point on a given `sys.argv`:
`exited m s` models "print message `m`, then `sys.exit(s)`";
`crashed` models an uncaught exception (here the `IndexError` from reading a
missing `sys.argv` element), which terminates the process with a non-zero
status; `invoked p a` models handing control to the underlying worker
function with file path `p` and optional extra argument `a`. -/
inductive CliResult where
  | exited (message : List Char) (status : Nat)
  | crashed
  | invoked (filePath : List Char) (extra : Option (List Char))
deriving DecidableEq

/-- `extract_sections_from_markdown_file_cli` from `src/cli/scripts.py`. -/
def extract_sections_from_markdown_file_cli (argv : List (List Char)) :
    CliResult :=
  if argv.length < 3 then
    .exited "Usage: extract-sections-from-markdown-file <file_path> <section_name>".toList 1
  else
    let sectionName := argv.getD 2 []
    if ["pandas".toList, "sql".toList, "pyspark".toList, "polars".toList].contains
        (lowerChars sectionName) then
      .invoked (argv.getD 1 []) (some sectionName)
    else
      .exited ("Invalid section name '".toList ++ sectionName ++
        "'. Valid options are: pandas, sql, pyspark, polars".toList) 1

/-- `reformat_file_cli` from `src/cli/scripts.py`: note that after the
length check it reads `sys.argv[2]` unconditionally. -/
def reformat_file_cli (argv : List (List Char)) : CliResult :=
  if argv.length < 2 then
    .exited "Usage: reformat-file <file_path>".toList 1
  else
    match argv[2]? with
    | none => .crashed
    | some a2 =>
      if !a2.isEmpty then .invoked (argv.getD 1 []) (some a2)
      else .invoked (argv.getD 1 []) none

/-- `convert_markdown_to_notebook_cli` from `src/cli/scripts.py`. -/
def convert_markdown_to_notebook_cli (argv : List (List Char)) : CliResult :=
  if argv.length < 2 then
    .exited "Usage: convert-markdown-to-notebook <file_path>".toList 1
  else .invoked (argv.getD 1 []) none

/-- `format_and_convert_cli` from `src/cli/scripts.py`: like
`reformat_file_cli` it reads `sys.argv[2]` unconditionally after the length
check. -/
def format_and_convert_cli (argv : List (List Char)) : CliResult :=
  if argv.length < 2 then
    .exited "Usage: format-and-convert <file_path>".toList 1
  else
    match argv[2]? with
    | none => .crashed
    | some a2 =>
      if !a2.isEmpty then .invoked (argv.getD 1 []) (some a2)
      else .invoked (argv.getD 1 []) none

/-! ## Concrete documents used in counterexamples and witnesses -/

/-- A document whose removed section `x` has captured text that also occurs
earlier, mid-line, inside non-tab content. -/
def c1Doc : List Char :=
  "foo === \"x\"\n    body\nbar\n=== \"x\"\n    body\n=== \"pandas\"\n    keep\n".toList

/-- The captured text of the removed `x` section of `c1Doc`. -/
def c1FullX : List Char := "=== \"x\"\n    body\n".toList

/-- What `extract_sections_from_markdown_file` actually writes for `c1Doc`:
the first (mid-line) copy of the removed text was deleted, mangling the
non-tab lines `foo ...` and `bar` into `foo bar`, while the removed
section itself survives. -/
def c1Out : List Char :=
  "foo bar\n=== \"x\"\n    body\n=== \"pandas\"\n    keep\n".toList

/-! ## Supporting lemmas -/

theorem matchTabAt_pos {cs : List Char} {tm : TabMatch} {n : Nat}
    (h : matchTabAt cs = some (tm, n)) : 0 < n := by
  simp only [matchTabAt] at h
  repeat split at h
  all_goals simp_all
  obtain ⟨h1, h2⟩ := h
  split at h2
  · exact absurd h2 (by simp)
  · simp only [Option.some.injEq, Prod.mk.injEq] at h2
    omega

theorem nlRun_cons_nl (cs : List Char) : nlRun ('\n' :: cs) = nlRun cs + 1 := by
  simp [nlRun, List.takeWhile_cons]

theorem nlRun_cons_of_ne {c : Char} (h : c ≠ '\n') (cs : List Char) :
    nlRun (c :: cs) = 0 := by
  simp [nlRun, List.takeWhile_cons, h]

theorem nlRun_drop_self (s : List Char) : nlRun (s.drop (nlRun s)) = 0 := by
  induction s with
  | nil => simp [nlRun]
  | cons c cs ih =>
    by_cases hc : c = '\n'
    · subst hc
      rw [nlRun_cons_nl, List.drop_succ_cons]
      exact ih
    · rw [nlRun_cons_of_ne hc, List.drop_zero, nlRun_cons_of_ne hc]

theorem nlRun_le_length (s : List Char) : nlRun s ≤ s.length := by
  induction s with
  | nil => simp [nlRun]
  | cons c cs ih =>
    by_cases hc : c = '\n'
    · subst hc
      rw [nlRun_cons_nl]
      simpa using ih
    · rw [nlRun_cons_of_ne hc]
      simp

theorem collapseAux_nlRun :
    ∀ (fuel : Nat) (s : List Char), s.length ≤ fuel →
      nlRun (collapseNewlinesAux fuel s) = min (nlRun s) 3 := by
  intro fuel
  induction fuel with
  | zero =>
    intro s hs
    have h0 : s = [] := List.length_eq_zero.mp (Nat.le_zero.mp hs)
    subst h0
    simp [collapseNewlinesAux, nlRun]
  | succ n ih =>
    intro s hs
    match s with
    | [] => simp [collapseNewlinesAux, nlRun]
    | c :: cs =>
      by_cases hcond : c = '\n' ∧ 4 ≤ nlRun (c :: cs)
      · rw [collapseNewlinesAux, if_pos hcond]
        have hdrop : nlRun ((c :: cs).drop (nlRun (c :: cs))) = 0 :=
          nlRun_drop_self _
        have hlen : ((c :: cs).drop (nlRun (c :: cs))).length ≤ n := by
          simp only [List.length_drop, List.length_cons]
          have h4 := hcond.2
          simp only [List.length_cons] at hs
          omega
        rw [nlRun_cons_nl, nlRun_cons_nl, nlRun_cons_nl, ih _ hlen, hdrop]
        have h4 := hcond.2
        omega
      · rw [collapseNewlinesAux, if_neg hcond]
        have hcs : cs.length ≤ n := by
          simp only [List.length_cons] at hs
          omega
        by_cases hc : c = '\n'
        · subst hc
          have h4 : nlRun ('\n' :: cs) < 4 := by
            by_contra h4
            exact hcond ⟨rfl, by omega⟩
          rw [nlRun_cons_nl] at h4 ⊢
          rw [nlRun_cons_nl, ih _ hcs]
          omega
        · rw [nlRun_cons_of_ne hc, nlRun_cons_of_ne hc]
          simp

theorem isPre_replicate_nl :
    ∀ (k : Nat) (t : List Char),
      isPre (List.replicate k '\n') t = true → k ≤ nlRun t := by
  intro k
  induction k with
  | zero => intro t _; simp
  | succ m ih =>
    intro t h
    match t with
    | [] => simp [List.replicate_succ, isPre] at h
    | c :: cs =>
      simp only [List.replicate_succ, isPre, Bool.and_eq_true, decide_eq_true_eq] at h
      obtain ⟨hc, hrest⟩ := h
      subst hc
      rw [nlRun_cons_nl]
      have := ih cs hrest
      omega

theorem isPre_four_false_of {t : List Char} (h : nlRun t < 4) :
    isPre fourNl t = false := by
  cases hh : isPre fourNl t with
  | false => rfl
  | true =>
    have h4 : (4 : Nat) ≤ nlRun t := by
      apply isPre_replicate_nl 4 t
      have he : List.replicate 4 '\n' = fourNl := by decide
      rw [he]
      exact hh
    omega

theorem collapseAux_no_four :
    ∀ (fuel : Nat) (s : List Char), s.length ≤ fuel →
      hasSub fourNl (collapseNewlinesAux fuel s) = false := by
  intro fuel
  induction fuel with
  | zero =>
    intro s hs
    have h0 : s = [] := List.length_eq_zero.mp (Nat.le_zero.mp hs)
    subst h0
    decide
  | succ n ih =>
    intro s hs
    match s with
    | [] => rfl
    | c :: cs =>
      by_cases hcond : c = '\n' ∧ 4 ≤ nlRun (c :: cs)
      · rw [collapseNewlinesAux, if_pos hcond]
        have hlen : ((c :: cs).drop (nlRun (c :: cs))).length ≤ n := by
          simp only [List.length_drop, List.length_cons]
          have h4 := hcond.2
          simp only [List.length_cons] at hs
          omega
        have hu : nlRun (collapseNewlinesAux n ((c :: cs).drop (nlRun (c :: cs)))) = 0 := by
          rw [collapseAux_nlRun n _ hlen, nlRun_drop_self]
          simp
        set u := collapseNewlinesAux n ((c :: cs).drop (nlRun (c :: cs))) with hudef
        have hp0 : isPre fourNl ('\n' :: '\n' :: '\n' :: u) = false :=
          isPre_four_false_of
            (by rw [nlRun_cons_nl, nlRun_cons_nl, nlRun_cons_nl, hu]; omega)
        have hp1 : isPre fourNl ('\n' :: '\n' :: u) = false :=
          isPre_four_false_of (by rw [nlRun_cons_nl, nlRun_cons_nl, hu]; omega)
        have hp2 : isPre fourNl ('\n' :: u) = false :=
          isPre_four_false_of (by rw [nlRun_cons_nl, hu]; omega)
        have hrest : hasSub fourNl u = false := ih _ hlen
        simp [hasSub, hp0, hp1, hp2, hrest]
      · rw [collapseNewlinesAux, if_neg hcond]
        have hcs : cs.length ≤ n := by
          simp only [List.length_cons] at hs
          omega
        have hrest : hasSub fourNl (collapseNewlinesAux n cs) = false := ih _ hcs
        have hhead : isPre fourNl (c :: collapseNewlinesAux n cs) = false := by
          by_cases hc : c = '\n'
          · subst hc
            apply isPre_four_false_of
            rw [nlRun_cons_nl, collapseAux_nlRun n _ hcs]
            have h4 : nlRun ('\n' :: cs) < 4 := by
              by_contra h4
              exact hcond ⟨rfl, by omega⟩
            rw [nlRun_cons_nl] at h4
            omega
          · apply isPre_four_false_of
            rw [nlRun_cons_of_ne hc]
            omega
        simp [hasSub, hhead, hrest]

theorem collapse_no_four (s : List Char) :
    hasSub fourNl (collapseNewlines s) = false :=
  collapseAux_no_four s.length s le_rfl

theorem isPre_append_self : ∀ (X B : List Char), isPre X (X ++ B) = true := by
  intro X B
  induction X with
  | nil => simp [isPre]
  | cons x xs ih => simp [isPre, ih]

theorem isPre_append_of {pat X : List Char} (T : List Char)
    (h : isPre pat X = true) : isPre pat (X ++ T) = true := by
  induction pat generalizing X with
  | nil => simp [isPre]
  | cons p ps ih =>
    match X with
    | [] => simp [isPre] at h
    | x :: xs =>
      simp only [isPre, Bool.and_eq_true] at h
      simp only [List.cons_append, isPre, Bool.and_eq_true]
      exact ⟨h.1, ih h.2⟩

theorem replaceFirst_nil_pat (s : List Char) : replaceFirst [] s = s := by
  induction s with
  | nil => rfl
  | cons c cs ih => simp [replaceFirst, ih]

theorem replaceFirst_cons (pat : List Char) (c : Char) (cs : List Char) :
    replaceFirst pat (c :: cs) =
      if !pat.isEmpty && isPre pat (c :: cs) then (c :: cs).drop pat.length
      else c :: replaceFirst pat cs := rfl

theorem replaceFirst_first_occurrence :
    ∀ (A X B : List Char),
      (∀ i, i < A.length → isPre X ((A ++ (X ++ B)).drop i) = false) →
      replaceFirst X (A ++ (X ++ B)) = A ++ B := by
  intro A
  induction A with
  | nil =>
    intro X B h
    simp only [List.nil_append]
    match X with
    | [] => simp [replaceFirst_nil_pat]
    | x :: xs =>
      have hp : isPre (x :: xs) ((x :: xs) ++ B) = true := isPre_append_self _ _
      rw [List.cons_append] at hp ⊢
      rw [replaceFirst_cons, hp]
      simp only [List.isEmpty_cons, Bool.not_false, Bool.true_and, if_true]
      have hd : ((x :: xs) ++ B).drop (x :: xs).length = B := List.drop_left _ _
      simp only [List.cons_append] at hd
      exact hd
  | cons a A' ih =>
    intro X B h
    have h0 : isPre X (a :: (A' ++ (X ++ B))) = false := by
      have := h 0 (by simp)
      simpa using this
    rw [List.cons_append, replaceFirst_cons, h0]
    simp only [Bool.and_false, if_neg Bool.false_ne_true, List.cons_append,
      List.cons.injEq, true_and]
    exact ih X B (by
      intro i hi
      have := h (i + 1) (by simp; omega)
      simpa [List.drop_succ_cons] using this)

theorem isPre_decomp {pat s : List Char} (h : isPre pat s = true) :
    s = pat ++ s.drop pat.length := by
  induction pat generalizing s with
  | nil => simp
  | cons p ps ih =>
    match s with
    | [] => simp [isPre] at h
    | c :: cs =>
      simp only [isPre, Bool.and_eq_true, decide_eq_true_eq] at h
      obtain ⟨hc, hrest⟩ := h
      subst hc
      simp only [List.cons_append, List.length_cons, List.drop_succ_cons,
        List.cons.injEq, true_and]
      exact ih hrest

theorem replaceAllAux_succ (pat rep : List Char) (fuel : Nat) (c : Char)
    (cs : List Char) :
    replaceAllAux pat rep (fuel + 1) (c :: cs) =
      if !pat.isEmpty && isPre pat (c :: cs) then
        rep ++ replaceAllAux pat rep fuel ((c :: cs).drop pat.length)
      else c :: replaceAllAux pat rep fuel cs := rfl

theorem replaceAll_head_eq (pat rep R : List Char) (hp : pat ≠ []) :
    ∃ T, replaceAll pat rep (pat ++ R) = rep ++ T := by
  match pat with
  | [] => exact absurd rfl hp
  | p :: ps =>
    have hpre : isPre (p :: ps) (p :: (ps ++ R)) = true := by
      have h1 := isPre_append_self (p :: ps) R
      simpa [List.cons_append] using h1
    have hcond : (!(p :: ps).isEmpty && isPre (p :: ps) (p :: (ps ++ R))) = true := by
      simp [hpre]
    refine ⟨replaceAllAux (p :: ps) rep (ps ++ R).length
      ((p :: (ps ++ R)).drop (p :: ps).length), ?_⟩
    show replaceAllAux (p :: ps) rep ((p :: ps) ++ R).length ((p :: ps) ++ R) = _
    simp only [List.cons_append, List.length_cons]
    rw [replaceAllAux_succ, if_pos hcond]
    simp

theorem dropWhile_isPySpace_bqPython (T : List Char) :
    List.dropWhile isPySpace (bqPython ++ T) = bqPython ++ T := by
  have h : isPySpace '`' = false := by decide
  simp only [bqPython, List.cons_append, List.dropWhile_cons, h]
  simp

theorem stripChars_bq_pre (T : List Char) :
    isPre bq3 (stripChars (bqPython ++ T)) = true := by
  unfold stripChars
  rw [dropWhile_isPySpace_bqPython, List.reverse_append, List.dropWhile_append]
  by_cases hT : (List.dropWhile isPySpace T.reverse).isEmpty = true
  · rw [if_pos hT]
    have hpy : List.dropWhile isPySpace bqPython.reverse = bqPython.reverse := by
      decide
    rw [hpy, List.reverse_reverse]
    decide
  · rw [if_neg hT, List.reverse_append, List.reverse_reverse]
    exact isPre_append_of _ (by decide)

theorem fenceOpen_close_false (l : List Char) :
    fenceCloseStep (fenceOpenStep false l).1 (fenceOpenStep false l).2 = false := by
  unfold fenceOpenStep
  by_cases hc : (isPre bqPy l && !isPre bqPython l) = true
  · rw [if_pos hc]
    have hl : l = bqPy ++ l.drop bqPy.length := by
      have h1 : isPre bqPy l = true := by
        simp only [Bool.and_eq_true] at hc
        exact hc.1
      exact isPre_decomp h1
    obtain ⟨T, hT⟩ := replaceAll_head_eq bqPy bqPython (l.drop bqPy.length)
      (by simp [bqPy])
    have hnew : replaceAll bqPy bqPython l = bqPython ++ T := by
      rw [hl] at hT ⊢
      exact hT
    simp only [fenceCloseStep, hnew, stripChars_bq_pre, if_pos, if_true]
  · rw [if_neg hc]
    simp [fenceCloseStep]

theorem extract_wrote_inv {f : MdFile} {p sn pth c : List Char} {k r : Nat}
    (h : extract_sections_from_markdown_file f p sn = .wrote pth c k r) :
    pth = f.stem ++ ['-'] ++ lowerChars sn ++ f.suffix ∧
    ∃ res, c = collapseNewlines res := by
  by_cases hp : f.present = true
  · by_cases hs : f.suffix = mdSuffix
    · by_cases hm : (scanTabs f.content true).isEmpty = true
      · simp [extract_sections_from_markdown_file, hp, hs, hm] at h
      · by_cases hk : ((scanTabs f.content true).filter
            (fun m => lowerChars m.name = lowerChars sn)).isEmpty = true
        · simp [extract_sections_from_markdown_file, hp, hs, hm, hk] at h
        · simp [extract_sections_from_markdown_file, hp, hs, hm, hk] at h
          obtain ⟨h1, h2, h3, h4⟩ := h
          constructor
          · rw [hs]
            simpa using h1.symm
          · exact ⟨_, h2.symm⟩
    · simp [extract_sections_from_markdown_file, hp, hs] at h
  · have hp' : f.present = false := by simpa using hp
    simp [extract_sections_from_markdown_file, hp'] at h

theorem processLine_flat_id (header : List Char) (l : List Char)
    (h1 : isPre ['=', '=', '='] l = false)
    (h2 : (isPre bqPy l && !isPre bqPython l) = false)
    (h3 : hasSub inclMarker l = false) :
    processLine header false false l = (false, false, l) := by
  by_cases hb : blankLine l = true
  · simp [processLine, hb]
  · have hb' : blankLine l = false := by simpa using hb
    simp [processLine, hb', tabDedentStep, tabHeaderStep, h1, fenceOpenStep,
      h2, fenceCloseStep, markerStripStep, h3]

theorem reformatGo_flat_id (header : List Char) :
    ∀ lines : List (List Char),
      (∀ l ∈ lines, isPre ['=', '=', '='] l = false ∧
        (isPre bqPy l && !isPre bqPython l) = false ∧
        hasSub inclMarker l = false) →
      reformatGo header false false lines = lines := by
  intro lines
  induction lines with
  | nil => intro _; rfl
  | cons l ls ih =>
    intro h
    have hl := h l (by simp)
    have hstep := processLine_flat_id header l hl.1 hl.2.1 hl.2.2
    simp only [reformatGo, hstep]
    exact congrArg _ (ih (fun l' hl' => h l' (by simp [hl'])))

/-! ## Theorems for the claims -/

/-- C1, counterexample: the claim says the output of `extract_section`
contains zero occurrences of any removed section's captured text and leaves
all non-tab content untouched even when removed sections have text identical
to other parts of the document.  On `c1Doc` (exactly one tab section named
`pandas`, one removed section `x` whose captured text also occurs earlier
mid-line), the written output still contains the removed section's captured
text, and the non-tab lines were mangled. -/
theorem extract_removed_text_persists :
    writtenContent (extract_sections_from_markdown_file
        ⟨true, "doc".toList, mdSuffix, c1Doc⟩ "doc.md".toList "pandas".toList)
      = some c1Out ∧ hasSub c1FullX c1Out = true := by
  exact ⟨by decide, by decide⟩

/-- C2, counterexample: the line `x = 1  # --8<-- include` lies strictly
inside the code fence opened by ```` ```py ```` and closed by ```` ``` ````,
yet `reformat_file` blanks it: the include marker is not left intact inside
code blocks, because `in_code_block` is cleared on the opening fence line
itself (its rewritten form starts with ```` ``` ````, which is not a bare
fence close marker). -/
theorem reformat_marker_blanked_inside_fence :
    reformatLines "h3".toList
        ["```py\n".toList, "x = 1  # --8<-- include\n".toList, "```\n".toList]
      = ["```python\n".toList, [], "```\n".toList] := by
  decide

/-- C3, failing input: with only the file-path argument present
(`sys.argv = [prog, path]`), `reformat_file_cli` and `format_and_convert_cli`
read `sys.argv[2]` unconditionally and crash with an uncaught `IndexError`
(a non-zero process exit) instead of running with the default header style. -/
theorem reformat_cli_crashes_without_header_argument :
    reformat_file_cli ["reformat-file".toList, "notes.md".toList] = .crashed ∧
    format_and_convert_cli ["format-and-convert".toList, "notes.md".toList]
      = .crashed := by
  exact ⟨by decide, by decide⟩

/-- C6: `reformat` with header style `h3` turns the tab marker line
`=== "Pandas"` into `### Pandas` (quotes stripped) and removes exactly one
4-space indent level from each of the two following lines; the output goes
to the `-r` sibling file. -/
theorem reformat_h3_tab_scenario :
    reformat_file true "doc".toList mdSuffix
        ["=== \"Pandas\"\n".toList, "    df.sum()\n".toList, "    df.head()\n".toList]
        "h3".toList
      = some ("doc-r.md".toList,
          ["### Pandas\n".toList, "df.sum()\n".toList, "df.head()\n".toList]) := by
  decide

/-- C7, counterexample: a document with no tab marker lines and no
short-alias code fences is still changed by `reformat_file` when a line
contains the include-marker token `--8<--`: the line is blanked, so the
written content is not byte-identical to the input. -/
theorem reformat_not_identity_on_marker_line :
    reformat_file true "doc".toList mdSuffix
        ["--8<-- 'snippet.md'\n".toList] "h3".toList
      = some ("doc-r.md".toList, [[]]) ∧
    ([[]] : List (List Char)) ≠ ["--8<-- 'snippet.md'\n".toList] := by
  exact ⟨by decide, by decide⟩

/-- C9: each of the four CLI entry points, invoked with its required
positional arguments missing, prints its documented usage string and exits
with status code 1 (`extract-sections` requires two positional arguments,
the other three require one). -/
theorem cli_missing_args_usage (argv : List (List Char)) :
    (argv.length < 3 →
      extract_sections_from_markdown_file_cli argv =
        .exited "Usage: extract-sections-from-markdown-file <file_path> <section_name>".toList 1) ∧
    (argv.length < 2 →
      reformat_file_cli argv =
        .exited "Usage: reformat-file <file_path>".toList 1) ∧
    (argv.length < 2 →
      convert_markdown_to_notebook_cli argv =
        .exited "Usage: convert-markdown-to-notebook <file_path>".toList 1) ∧
    (argv.length < 2 →
      format_and_convert_cli argv =
        .exited "Usage: format-and-convert <file_path>".toList 1) := by
  refine ⟨fun h => ?_, fun h => ?_, fun h => ?_, fun h => ?_⟩ <;>
    simp [extract_sections_from_markdown_file_cli, reformat_file_cli,
      convert_markdown_to_notebook_cli, format_and_convert_cli, h]

/-- C1, amended: each removed match, processed in reverse document order,
has the first occurrence of its captured text deleted from the current
document; when the removed captured text does not occur before its own
match, this deletes exactly the matched span.  Stated for a document whose
tab matcher finds one kept and one removed section, with the removed
section's captured text occurring first at its own match: the written
output is the document with the removed span deleted (then
newline-collapsed), retaining the kept section and non-tab content. -/
theorem extract_two_sections_first_occurrence_deletion
    (f : MdFile) (p sn : List Char) (m1 m2 : TabMatch) (A B : List Char)
    (hp : f.present = true) (hs : f.suffix = mdSuffix)
    (hms : scanTabs f.content true = [m1, m2])
    (hk : lowerChars m1.name = lowerChars sn)
    (hr : ¬ lowerChars m2.name = lowerChars sn)
    (hdec : f.content = A ++ (m2.full ++ B))
    (hfirst : ∀ i, i < A.length → isPre m2.full (f.content.drop i) = false) :
    writtenContent (extract_sections_from_markdown_file f p sn)
      = some (collapseNewlines (A ++ B)) := by
  have hfirst' : ∀ i, i < A.length →
      isPre m2.full ((A ++ (m2.full ++ B)).drop i) = false := by
    intro i hi
    have hx := hfirst i hi
    rwa [hdec] at hx
  have hrepl : replaceFirst m2.full f.content = A ++ B := by
    rw [hdec]
    exact replaceFirst_first_occurrence A m2.full B hfirst'
  simp [extract_sections_from_markdown_file, hp, hs, hms, hk, hr, hrepl,
    writtenContent]

/-- C1, amended, witness: the spec's two-tab scenario, a `pandas` section
kept and a `polars` section removed. -/
theorem extract_two_sections_deletion_witness :
    writtenContent (extract_sections_from_markdown_file
        ⟨true, "doc".toList, mdSuffix,
          "=== \"pandas\"\n    df.sum()\n=== \"polars\"\n    df.sum()\n".toList⟩
        "doc.md".toList "pandas".toList)
      = some (collapseNewlines ("=== \"pandas\"\n    df.sum()\n".toList ++ [])) :=
  extract_two_sections_first_occurrence_deletion
    ⟨true, "doc".toList, mdSuffix,
      "=== \"pandas\"\n    df.sum()\n=== \"polars\"\n    df.sum()\n".toList⟩
    "doc.md".toList "pandas".toList
    ⟨"pandas".toList, "    df.sum()\n".toList, "=== \"pandas\"\n    df.sum()\n".toList⟩
    ⟨"polars".toList, "    df.sum()\n".toList, "=== \"polars\"\n    df.sum()\n".toList⟩
    "=== \"pandas\"\n    df.sum()\n".toList []
    rfl rfl (by decide) (by decide) (by decide) (by decide) (by decide)

/-- C2, amended: `in_code_block` is false again after every line processed
from a false state (the only line that sets it — a ```` ```py ```` opener —
also clears it, since its rewritten form starts with ```` ``` ````), so the
include-marker stripping runs on every non-blank line: whenever the line
as seen by the stripping check contains `--8<--`, the stored line is
blanked, with no exemption for lines inside code fences. -/
theorem reformat_marker_strip_ignores_fences (header : List Char)
    (itb : Bool) (line : List Char) :
    (processLine header false itb line).1 = false ∧
    (blankLine line = false →
      hasSub inclMarker (preStripLine header itb line) = true →
      (processLine header false itb line).2.2 = []) := by
  by_cases hb : blankLine line = true
  · simp [processLine, hb]
  · have hb' : blankLine line = false := by simpa using hb
    constructor
    · simp only [processLine, hb', Bool.false_eq_true, if_false]
      exact fenceOpen_close_false _
    · intro _ hsub
      simp only [preStripLine] at hsub
      simp only [processLine, hb', Bool.false_eq_true, if_false,
        markerStripStep, fenceOpen_close_false, hsub]
      simp

/-- C2, amended, witness: a concrete non-blank line containing the
include-marker token is blanked from the `in_code_block = false` state. -/
theorem reformat_marker_strip_witness :
    (processLine "h3".toList false false
      "x = 1  # --8<-- include\n".toList).1 = false ∧
    (processLine "h3".toList false false
      "x = 1  # --8<-- include\n".toList).2.2 = [] :=
  ⟨(reformat_marker_strip_ignores_fences "h3".toList false
      "x = 1  # --8<-- include\n".toList).1,
   (reformat_marker_strip_ignores_fences "h3".toList false
      "x = 1  # --8<-- include\n".toList).2 (by decide) (by decide)⟩

/-- C4: whenever any of the four error/no-op conditions holds — input file
missing, extension not `.md`, zero tab matches in the document, or the
requested section name matching no section — the function prints a
human-readable message and returns without writing (the `errorMsg` result
carries no write; the embedded function is total, so no fatal crash). -/
theorem extract_error_conditions_no_write (f : MdFile) (p sn : List Char)
    (h : f.present = false ∨ f.suffix ≠ mdSuffix ∨
      scanTabs f.content true = [] ∨
      (scanTabs f.content true).filter
        (fun m => lowerChars m.name = lowerChars sn) = []) :
    ∃ msg, extract_sections_from_markdown_file f p sn = .errorMsg msg := by
  by_cases hp : f.present = true
  · by_cases hs : f.suffix = mdSuffix
    · by_cases hm : (scanTabs f.content true).isEmpty = true
      · exact ⟨"No tab sections found in ".toList ++ p,
          by simp [extract_sections_from_markdown_file, hp, hs, hm]⟩
      · have hm' : (scanTabs f.content true).isEmpty = false := by
          simpa using hm
        have hf : (scanTabs f.content true).filter
            (fun m => lowerChars m.name = lowerChars sn) = [] := by
          rcases h with h | h | h | h
          · rw [hp] at h
            exact absurd h (by simp)
          · exact absurd hs h
          · exact absurd (by simp [h] :
              (scanTabs f.content true).isEmpty = true) (by simpa using hm)
          · exact h
        exact ⟨"No sections found for '".toList ++ sn ++ "' in ".toList ++ p,
          by simp [extract_sections_from_markdown_file, hp, hs, hm', hf]⟩
    · exact ⟨"File ".toList ++ p ++ " is not a markdown file.".toList,
        by simp [extract_sections_from_markdown_file, hp, hs]⟩
  · have hp' : f.present = false := by simpa using hp
    exact ⟨"File ".toList ++ p ++ " does not exist.".toList,
      by simp [extract_sections_from_markdown_file, hp']⟩

/-- C4, witness: the missing-file condition at a concrete input. -/
theorem extract_error_conditions_witness :
    ∃ msg, extract_sections_from_markdown_file
        ⟨false, "doc".toList, mdSuffix, []⟩ "doc.md".toList "pandas".toList
      = .errorMsg msg :=
  extract_error_conditions_no_write ⟨false, "doc".toList, mdSuffix, []⟩
    "doc.md".toList "pandas".toList (Or.inl rfl)

/-- C5: whatever `extract_sections_from_markdown_file` writes has passed
through the `\n{4,}` collapse, so the written content contains no run of 4
or more consecutive newline characters. -/
theorem extract_output_no_quad_newline (f : MdFile)
    (p sn pth c : List Char) (k r : Nat)
    (h : extract_sections_from_markdown_file f p sn = .wrote pth c k r) :
    hasSub fourNl c = false := by
  obtain ⟨-, res, hc⟩ := extract_wrote_inv h
  rw [hc]
  exact collapse_no_four res

/-- C5, witness: an input with a run of 6 newlines; the written content (in
which the run was collapsed to 3) has no 4-newline run. -/
theorem extract_output_no_quad_newline_witness :
    hasSub fourNl "=== \"pandas\"\n    x\n\n\nend\n".toList = false :=
  extract_output_no_quad_newline
    ⟨true, "doc".toList, mdSuffix,
      "=== \"pandas\"\n    x\n\n\n\n\n\nend\n".toList⟩
    "doc.md".toList "pandas".toList
    "doc-pandas.md".toList "=== \"pandas\"\n    x\n\n\nend\n".toList 1 0
    (by decide)

/-- C7, amended: `reformat_file` is the identity on the content of an
already-flat document — no line starting with `===` (the code's tab-marker
test), no short-alias ```` ```py ```` fence opener, and additionally no line
containing the include-marker token `--8<--` — and only the file name
differs (`-r` inserted before the extension). -/
theorem reformat_flat_identity (header stem sfx : List Char)
    (lines : List (List Char))
    (h : ∀ l ∈ lines, isPre ['=', '=', '='] l = false ∧
      (isPre bqPy l && !isPre bqPython l) = false ∧
      hasSub inclMarker l = false) :
    reformat_file true stem sfx lines header
      = some (stem ++ ['-', 'r'] ++ sfx, lines) ∧
    stem ++ ['-', 'r'] ++ sfx ≠ stem ++ sfx := by
  constructor
  · simp [reformat_file, reformatLines, reformatGo_flat_id header lines h]
  · intro he
    have hlen := congrArg List.length he
    simp [List.length_append] at hlen
    omega

/-- C7, amended, witness: a concrete flat document is returned unchanged. -/
theorem reformat_flat_identity_witness :
    reformat_file true "doc".toList mdSuffix
        ["# Title\n".toList, "text\n".toList] "h3".toList
      = some ("doc".toList ++ ['-', 'r'] ++ mdSuffix,
          ["# Title\n".toList, "text\n".toList]) ∧
    "doc".toList ++ ['-', 'r'] ++ mdSuffix ≠ "doc".toList ++ mdSuffix :=
  reformat_flat_identity "h3".toList "doc".toList mdSuffix
    ["# Title\n".toList, "text\n".toList] (by decide)

/-- C8: on success the output path is the sibling
`<stem>-<section_name><ext>` (the write itself overwrites any existing file
at that path, as `open(..., "w")` does), for every valid section name. -/
theorem extract_output_path_derived (f : MdFile)
    (p sn pth c : List Char) (k r : Nat)
    (hv : sn = "pandas".toList ∨ sn = "sql".toList ∨
      sn = "pyspark".toList ∨ sn = "polars".toList)
    (h : extract_sections_from_markdown_file f p sn = .wrote pth c k r) :
    pth = f.stem ++ ['-'] ++ sn ++ f.suffix := by
  have h1 := (extract_wrote_inv h).1
  have hl : lowerChars sn = sn := by
    rcases hv with hv | hv | hv | hv <;> subst hv <;> decide
  rw [h1, hl]

/-- C8, witness: a concrete successful extraction writes
`doc-pandas.md`. -/
theorem extract_output_path_derived_witness :
    "doc-pandas.md".toList
      = "doc".toList ++ ['-'] ++ "pandas".toList ++ mdSuffix :=
  extract_output_path_derived
    ⟨true, "doc".toList, mdSuffix, "=== \"pandas\"\n    x\n".toList⟩
    "doc.md".toList "pandas".toList
    "doc-pandas.md".toList "=== \"pandas\"\n    x\n".toList 1 0
    (Or.inl rfl) (by decide)

/-- C10: the single path `extract_sections_from_markdown_file` ever writes
(the `wrote` result) differs from the input file's own name, so the input
file is never modified; every other outcome writes nothing. -/
theorem extract_input_file_untouched (f : MdFile)
    (p sn pth c : List Char) (k r : Nat)
    (h : extract_sections_from_markdown_file f p sn = .wrote pth c k r) :
    pth ≠ f.stem ++ f.suffix := by
  have h1 := (extract_wrote_inv h).1
  rw [h1]
  intro he
  have hlen := congrArg List.length he
  simp [List.length_append] at hlen
  omega

/-- C10, witness: the concrete output path differs from the input path. -/
theorem extract_input_file_untouched_witness :
    "doc-pandas.md".toList ≠ "doc".toList ++ mdSuffix :=
  extract_input_file_untouched
    ⟨true, "doc".toList, mdSuffix, "=== \"pandas\"\n    x\n".toList⟩
    "doc.md".toList "pandas".toList
    "doc-pandas.md".toList "=== \"pandas\"\n    x\n".toList 1 0
    (by decide)

/-- C9, witness: the four usage exits at the concrete `sys.argv = [prog]`. -/
theorem cli_missing_args_usage_witness :
    extract_sections_from_markdown_file_cli ["prog".toList] =
      .exited "Usage: extract-sections-from-markdown-file <file_path> <section_name>".toList 1 ∧
    reformat_file_cli ["prog".toList] =
      .exited "Usage: reformat-file <file_path>".toList 1 ∧
    convert_markdown_to_notebook_cli ["prog".toList] =
      .exited "Usage: convert-markdown-to-notebook <file_path>".toList 1 ∧
    format_and_convert_cli ["prog".toList] =
      .exited "Usage: format-and-convert <file_path>".toList 1 :=
  ⟨(cli_missing_args_usage ["prog".toList]).1 (by decide),
   (cli_missing_args_usage ["prog".toList]).2.1 (by decide),
   (cli_missing_args_usage ["prog".toList]).2.2.1 (by decide),
   (cli_missing_args_usage ["prog".toList]).2.2.2 (by decide)⟩

end DseGuides
